import Mathlib

/-!
Verification development for the pyutils repository.

This file gives a shallow embedding, in Lean, of the algorithmic core of the
repository — the partition-index calculator (`pyutils/core/utils.py` and its
identical copy in `pyutils/general/utils.py`), the date-wise and month-wise
bucketers (`pyutils/core/date_ops.py`), the ranking engine
(`pyutils/data_wrangler/transform.py`) and the invalid-option helper
(`pyutils/core/exceptions.py`) — and proves the specified properties of
those functions.

Modelling conventions:
* Python integers are `Int`; Python `//` (floor division) is `Int.fdiv` and
  Python `%` (sign follows the divisor) is `Int.fmod`.
* Calendar dates handled purely by day arithmetic (`datetime` plus
  `timedelta(days=k)`) are modelled as an integer day number; adding a
  `timedelta` of `k` days is integer addition.
* A `while` loop whose termination is not structurally evident is modelled
  with an explicit fuel parameter; `none` for every fuel value means the
  loop does not terminate.
* A Python function that can raise is modelled as returning
  `Except String α`, the error carrying the exception message.
-/

/-! ## Partition index calculator (pyutils/core/utils.py, get_indices_for_partitioning) -/

/-- Embeds the first loop of `get_indices_for_partitioning`:
`while num_residuals > 0:` appends `indices[-1] + (min_length_per_partition + 1)`
and decrements `num_residuals`, so it runs exactly `max(num_residuals, 0)`
times; the `Nat` argument is that iteration count. -/
def partitionLoop1 (minLen : Int) : Nat → List Int → List Int
  | 0, indices => indices
  | n + 1, indices =>
      partitionLoop1 minLen n (indices ++ [indices.getLastD 0 + (minLen + 1)])

/-- Embeds the second loop of `get_indices_for_partitioning`:
`while len(indices_for_partitioning) != num_partitions + 1:` appends
`indices[-1] + min_length_per_partition`.  The loop has no structural bound
(its guard is an inequality test), so it is given fuel; `none` means the
fuel ran out, and `none` for every fuel means the loop diverges. -/
def partitionLoop2 (minLen numPartitions : Int) : Nat → List Int → Option (List Int)
  | 0, _ => none
  | fuel + 1, indices =>
      if (indices.length : Int) = numPartitions + 1 then some indices
      else partitionLoop2 minLen numPartitions fuel
        (indices ++ [indices.getLastD 0 + minLen])

/-- Embeds `get_indices_for_partitioning(length_of_iterable, num_partitions)`
from `pyutils/core/utils.py` (the copy in `pyutils/general/utils.py` is
textually identical).  `some (Except.error _)` is the `ValueError` raised for
zero partitions, `some (Except.ok _)` is a normal return, and `none` means
the second loop ran out of fuel. -/
def get_indices_for_partitioning (length_of_iterable num_partitions : Int)
    (fuel : Nat) : Option (Except String (List Int)) :=
  if num_partitions = 0 then some (Except.error "Number of partitions cannot be 0")
  else
    let min_length_per_partition := length_of_iterable.fdiv num_partitions
    let num_residuals := (length_of_iterable.fmod num_partitions).toNat
    let indices := partitionLoop1 min_length_per_partition num_residuals [0]
    (partitionLoop2 min_length_per_partition num_partitions fuel indices).map Except.ok

/-- The boundaries described by the specification: with `base = L // P` and
`remainder = L % P`, boundary `i` is `base * i + min i remainder`, i.e. the
cumulative sum of `remainder` partitions of size `base + 1` followed by
partitions of size `base`. -/
def partitionBoundariesSpec (L P : Int) : List Int :=
  (List.range (P.toNat + 1)).map (fun i : Nat => L.fdiv P * (i : Int) + min (i : Int) (L.fmod P))

/-- Size of partition `i` delimited by boundaries `i` and `i + 1` of `l`. -/
def partitionSize (l : List Int) (i : Nat) : Int :=
  l.getD (i + 1) 0 - l.getD i 0

/-- The conjunction of properties claimed for `get_indices_for_partitioning`
at `L ≥ 0`, `P ≥ 1`: the call returns (with fuel `P + 1`) the spec boundaries;
they have `P + 1` entries, start at `0`, end at `L`, are non-decreasing, the
first `L % P` partitions have size `base + 1` and the rest size `base`, and
partition sizes are non-increasing and pairwise differ by at most one. -/
def PartitionConclusion (L P : Int) : Prop :=
  get_indices_for_partitioning L P (P.toNat + 1) =
      some (Except.ok (partitionBoundariesSpec L P)) ∧
  (partitionBoundariesSpec L P).length = P.toNat + 1 ∧
  (partitionBoundariesSpec L P).headD 0 = 0 ∧
  (partitionBoundariesSpec L P).getLastD 0 = L ∧
  List.Sorted (· ≤ ·) (partitionBoundariesSpec L P) ∧
  (∀ i : Nat, i < P.toNat →
    partitionSize (partitionBoundariesSpec L P) i =
      L.fdiv P + (if (i : Int) < L.fmod P then 1 else 0)) ∧
  (∀ i j : Nat, i ≤ j → j < P.toNat →
    partitionSize (partitionBoundariesSpec L P) j ≤
        partitionSize (partitionBoundariesSpec L P) i ∧
      partitionSize (partitionBoundariesSpec L P) i ≤
        partitionSize (partitionBoundariesSpec L P) j + 1)

/-! ## Date-wise bucketer (pyutils/core/date_ops.py, DateWiseBucketer) -/

/-- Embeds the loop of `DateWiseBucketer.get_forward_buckets`: starting at the
anchor day, each iteration emits `(dt_obj, dt_obj + (num_days_per_bucket - 1))`
and advances the cursor by `num_days_per_bucket - 1` when `is_inclusive` else
by `num_days_per_bucket`.  Dates are day numbers. -/
def forwardLoop (numDays : Int) (isInclusive : Bool) : Nat → Int → List (Int × Int)
  | 0, _ => []
  | n + 1, cur =>
      (cur, cur + (numDays - 1)) ::
        forwardLoop numDays isInclusive n
          (cur + (if isInclusive then numDays - 1 else numDays))

/-- Embeds the loop of `DateWiseBucketer.get_backward_buckets`: each iteration
emits `(dt_obj - (num_days_per_bucket - 1), dt_obj)` and moves the cursor
backwards; the Python method returns the reversed list. -/
def backwardLoop (numDays : Int) (isInclusive : Bool) : Nat → Int → List (Int × Int)
  | 0, _ => []
  | n + 1, cur =>
      (cur - (numDays - 1), cur) ::
        backwardLoop numDays isInclusive n
          (cur - (if isInclusive then numDays - 1 else numDays))

/-- The cursor advance per iteration of the bucket loops:
`num_days_per_bucket - 1` when `is_inclusive` else `num_days_per_bucket`. -/
def bucketStep (s : Int) (inc : Bool) : Int :=
  if inc then s - 1 else s

/-- `DateWiseBucketer.get_forward_buckets` with the anchor date given as a day
number; `range(self.num_buckets)` iterates `max(num_buckets, 0)` times. -/
def DateWiseBucketer.get_forward_buckets (anchor numDaysPerBucket numBuckets : Int)
    (isInclusive : Bool) : List (Int × Int) :=
  forwardLoop numDaysPerBucket isInclusive numBuckets.toNat anchor

/-- `DateWiseBucketer.get_backward_buckets`: generates backwards from the
anchor and returns `date_range_buckets[::-1]`. -/
def DateWiseBucketer.get_backward_buckets (anchor numDaysPerBucket numBuckets : Int)
    (isInclusive : Bool) : List (Int × Int) :=
  (backwardLoop numDaysPerBucket isInclusive numBuckets.toNat anchor).reverse

/-- Python values that might be passed for the `as_strings` parameter of the
bucket methods (the methods never validate it; they only branch on its
truthiness, `if as_strings:`). -/
inductive PyVal where
  | pybool : Bool → PyVal
  | pystr : String → PyVal
  | pynone : PyVal
deriving DecidableEq, Repr

/-- Python truthiness for the modelled values: `bool(b) = b`,
`bool(s) = (s != "")`, `bool(None) = False`. -/
def PyVal.truthy : PyVal → Bool
  | .pybool b => b
  | .pystr s => s.length != 0
  | .pynone => false

/-- `DateWiseBucketer.get_forward_buckets` with an arbitrary Python value
passed as the `as_strings` argument.  The source contains no validation of
this argument: the loop only branches on its truthiness, so the call always
succeeds.  The boolean in the result records which representation branch was
taken (dates would be rendered as strings when it is `true`); the bucket
day-number values are unaffected by that branch. -/
def DateWiseBucketer.get_forward_buckets_any_selector (anchor numDaysPerBucket
    numBuckets : Int) (isInclusive : Bool) (as_strings : PyVal) :
    Except String (Bool × List (Int × Int)) :=
  Except.ok (as_strings.truthy, forwardLoop numDaysPerBucket isInclusive numBuckets.toNat anchor)

/-- The day-granularity properties claimed for the default
(`is_inclusive=False`) bucketer: forward bucket `k` is
`(anchor + k*size, anchor + k*size + (size-1))`, consecutive buckets in both
directions satisfy `next.start = current.end + 1`, the backward result is
non-empty with its final bucket ending at the anchor, and both results are in
ascending chronological order. -/
def DayBucketConclusion (anchor size n : Int) : Prop :=
  DateWiseBucketer.get_forward_buckets anchor size n false =
      (List.range n.toNat).map
        (fun k : Nat => (anchor + (k : Int) * size, anchor + (k : Int) * size + (size - 1))) ∧
  List.Chain' (fun a b : Int × Int => b.1 = a.2 + 1)
      (DateWiseBucketer.get_forward_buckets anchor size n false) ∧
  List.Chain' (fun a b : Int × Int => b.1 = a.2 + 1)
      (DateWiseBucketer.get_backward_buckets anchor size n false) ∧
  DateWiseBucketer.get_backward_buckets anchor size n false ≠ [] ∧
  ((DateWiseBucketer.get_backward_buckets anchor size n false).getLastD (0, 0)).2 = anchor ∧
  List.Sorted (fun a b : Int × Int => a.1 ≤ b.1 ∧ a.2 ≤ b.2)
      (DateWiseBucketer.get_forward_buckets anchor size n false) ∧
  List.Sorted (fun a b : Int × Int => a.1 ≤ b.1 ∧ a.2 ≤ b.2)
      (DateWiseBucketer.get_backward_buckets anchor size n false)

/-- The properties claimed for the `is_inclusive=True` bucketer: in both
directions consecutive buckets share exactly their boundary day
(`next.start = current.end`, with strictly increasing starts and ends), and
every bucket still satisfies `start ≤ end`. -/
def InclusiveBucketConclusion (anchor size n : Int) : Prop :=
  List.Chain' (fun a b : Int × Int => b.1 = a.2 ∧ a.1 < b.1 ∧ a.2 < b.2)
      (DateWiseBucketer.get_forward_buckets anchor size n true) ∧
  List.Chain' (fun a b : Int × Int => b.1 = a.2 ∧ a.1 < b.1 ∧ a.2 < b.2)
      (DateWiseBucketer.get_backward_buckets anchor size n true) ∧
  (∀ p ∈ DateWiseBucketer.get_forward_buckets anchor size n true, p.1 ≤ p.2) ∧
  (∀ p ∈ DateWiseBucketer.get_backward_buckets anchor size n true, p.1 ≤ p.2)

/-! ## Invalid-option helper (pyutils/core/exceptions.py) -/

/-- Python `str()` of a list of strings, as interpolated by the f-string in
`raise_exception_if_invalid_option`: elements are quoted with single quotes
and joined with a comma and a space inside square brackets. -/
def pyListRepr (xs : List String) : String :=
  "[" ++ String.intercalate ", " (xs.map (fun x => "'" ++ x ++ "'")) ++ "]"

/-- The message of the `ValueError` raised by
`raise_exception_if_invalid_option`. -/
def invalidOptionMessage (option_name option_value : String)
    (valid_option_values : List String) : String :=
  "Expected `" ++ option_name ++ "` to be in " ++ pyListRepr valid_option_values ++
    ", but got " ++ option_value

/-- Embeds `raise_exception_if_invalid_option` from
`pyutils/core/exceptions.py`: raises a `ValueError` naming the parameter, the
received value and the allowed set when the value is outside the allowed set,
and otherwise returns `None`. -/
def raise_exception_if_invalid_option (option_name option_value : String)
    (valid_option_values : List String) : Except String Unit :=
  if option_value ∈ valid_option_values then Except.ok ()
  else Except.error (invalidOptionMessage option_name option_value valid_option_values)

/-! ## Month-wise bucketer (pyutils/core/date_ops.py, MonthWiseBucketer) -/

/-- A calendar date, used by the month-wise bucketer where real month/leap-year
arithmetic matters. -/
structure CalDate where
  year : Int
  month : Int
  day : Int
deriving DecidableEq, Repr

/-- Gregorian leap-year rule (models the calendar used by the pandas
month-end frequency). -/
def isLeapYear (y : Int) : Bool :=
  (y.emod 4 == 0 && y.emod 100 != 0) || (y.emod 400 == 0)

/-- Number of days of month `m` of year `y` in the Gregorian calendar. -/
def daysInMonth (y m : Int) : Int :=
  if m = 2 then (if isLeapYear y then 29 else 28)
  else if m = 4 ∨ m = 6 ∨ m = 9 ∨ m = 11 then 30
  else 31

/-- The last day of the month whose absolute month index is `absMonth`
(index `12 * year + (month - 1)`). -/
def monthEndDate (absMonth : Int) : CalDate :=
  ⟨absMonth.fdiv 12, absMonth.fmod 12 + 1, daysInMonth (absMonth.fdiv 12) (absMonth.fmod 12 + 1)⟩

/-- Models `pd.date_range(start=<first of anchor month>, freq='1M'/'-1M',
periods=n)` as used by `MonthWiseBucketer`: pandas rolls the (never
on-offset) first-of-month start forward to the anchor month's end and then
steps by `step` months, producing the month-end dates of months
`startMonth + step * k`, `k = 0 .. periods - 1`. -/
def date_range_month_ends (startMonth step : Int) (periods : Nat) : List CalDate :=
  (List.range periods).map (fun k : Nat => monthEndDate (startMonth + step * (k : Int)))

/-- Embeds `MonthWiseBucketer.__period_obj_to_month_wise_bucket`: from the
month-end date it returns `(first day of that month, that month-end date)`
via `dt_obj.replace(day=1)`. -/
def period_to_month_wise_bucket (d : CalDate) : CalDate × CalDate :=
  (⟨d.year, d.month, 1⟩, d)

/-- The full bucket of the month with absolute index `absMonth`. -/
def monthBucket (absMonth : Int) : CalDate × CalDate :=
  period_to_month_wise_bucket (monthEndDate absMonth)

/-- Embeds `MonthWiseBucketer.get_forward_buckets`. -/
def MonthWiseBucketer.get_forward_buckets (year month num_buckets : Int) :
    List (CalDate × CalDate) :=
  (date_range_month_ends (12 * year + (month - 1)) 1 num_buckets.toNat).map
    period_to_month_wise_bucket

/-- Embeds `MonthWiseBucketer.get_backward_buckets` (`freq='-1M'`, then the
result list is reversed). -/
def MonthWiseBucketer.get_backward_buckets (year month num_buckets : Int) :
    List (CalDate × CalDate) :=
  ((date_range_month_ends (12 * year + (month - 1)) (-1) num_buckets.toNat).map
    period_to_month_wise_bucket).reverse

/-- A month bucket is well-formed when its start is day 1 of the same month
as its end, the month is a real month number, and the end day is the last
calendar day of that month. -/
def MonthBucketWellFormed (p : CalDate × CalDate) : Prop :=
  p.1.day = 1 ∧ p.1.year = p.2.year ∧ p.1.month = p.2.month ∧
  1 ≤ p.2.month ∧ p.2.month ≤ 12 ∧ p.2.day = daysInMonth p.2.year p.2.month

/-- The properties claimed for the month-wise bucketer: forward bucket `k`
is the full month `k` months after the anchor month, backward bucket `k`
(before the final reversal) is the full month `k` months before the anchor
month, every returned bucket is well-formed, `monthBucket` really is the
month of its index, and the first forward bucket is the anchor month
itself. -/
def MonthBucketConclusion (year month n : Int) : Prop :=
  MonthWiseBucketer.get_forward_buckets year month n =
      (List.range n.toNat).map (fun k : Nat => monthBucket (12 * year + (month - 1) + (k : Int))) ∧
  MonthWiseBucketer.get_backward_buckets year month n =
      ((List.range n.toNat).map (fun k : Nat => monthBucket (12 * year + (month - 1) - (k : Int)))).reverse ∧
  (∀ p ∈ MonthWiseBucketer.get_forward_buckets year month n, MonthBucketWellFormed p) ∧
  (∀ p ∈ MonthWiseBucketer.get_backward_buckets year month n, MonthBucketWellFormed p) ∧
  (∀ M : Int, 12 * (monthBucket M).2.year + ((monthBucket M).2.month - 1) = M) ∧
  (1 ≤ n → (MonthWiseBucketer.get_forward_buckets year month n).headD (monthBucket 0) =
      (⟨year, month, 1⟩, ⟨year, month, daysInMonth year month⟩))

/-! ## Ranking engine (pyutils/data_wrangler/transform.py) -/

/-- Embeds `__get_row_number_rankings`: `np.arange(1, len(df_ranked) + 1)`. -/
def get_row_number_rankings (n : Nat) : List Int :=
  (List.range n).map (fun i : Nat => (i : Int) + 1)

/-- Embeds the loop of `__get_dense_rankings` over the remaining key tuples:
the next rank repeats `dense_rankings[-1]` when the key equals the previous
one and otherwise adds 1. -/
def denseLoop {K : Type} [DecidableEq K] : List K → List Int → K → List Int
  | [], acc, _ => acc
  | v :: vs, acc, prev =>
      denseLoop vs
        (acc ++ [if prev = v then acc.getLastD 0 else acc.getLastD 0 + 1]) v

/-- Embeds `__get_dense_rankings`: rows are represented by their key tuples
(the `rank_by` projection).  Reading `values_used_for_ranking[0]` on an empty
frame raises `IndexError`. -/
def get_dense_rankings {K : Type} [DecidableEq K] : List K → Except String (List Int)
  | [] => Except.error "IndexError: list index out of range"
  | v0 :: rest => Except.ok (denseLoop rest [1] v0)

/-- Embeds the loop of `__get_non_dense_rankings`: on a new key the next rank
is `non_dense_rankings[-1] + Counter(non_dense_rankings)[latest]`, the count
of the latest rank among the ranks assigned so far. -/
def nonDenseLoop {K : Type} [DecidableEq K] : List K → List Int → K → List Int
  | [], acc, _ => acc
  | v :: vs, acc, prev =>
      nonDenseLoop vs
        (acc ++ [if prev = v then acc.getLastD 0
                 else acc.getLastD 0 + (acc.count (acc.getLastD 0) : Int)]) v

/-- Embeds `__get_non_dense_rankings`; empty input raises `IndexError` as in
`__get_dense_rankings`. -/
def get_non_dense_rankings {K : Type} [DecidableEq K] : List K → Except String (List Int)
  | [] => Except.error "IndexError: list index out of range"
  | v0 :: rest => Except.ok (nonDenseLoop rest [1] v0)

/-- The `method_options` list of `rank_and_sort`. -/
def method_options : List String :=
  ["row_number", "dense_rank", "non_dense_rank"]

/-- The message of the `ValueError` raised by `rank_and_sort` for an invalid
`method` (the f-string interpolates the options list and quotes the value). -/
def methodErrorMessage (method : String) : String :=
  "Expected `method` to be in ['row_number', 'dense_rank', 'non_dense_rank'], but got '" ++
    method ++ "'"

/-- The message of the `ValueError` raised by `rank_and_sort` for `rank_by`
and `ascending` of different lengths. -/
def lengthErrorMessage (rank_by_len ascending_len : Nat) : String :=
  "Expected `rank_by` and `ascending` to be of same length, but got lengths " ++
    toString rank_by_len ++ " and " ++ toString ascending_len ++ " respectively."

/-- Models `data.sort_values(by=rank_by, ascending=ascending)`.  Rows are
represented by their composite sort key under the `rank_by`/`ascending`
order (an abstract linear order `≤` on `K`); since equal keys are
indistinguishable in this representation, any correct sorting algorithm
produces the same list, so insertion sort is used. -/
def sort_values {K : Type} [LinearOrder K] (keys : List K) : List K :=
  List.insertionSort (· ≤ ·) keys

/-- Embeds `rank_and_sort` from `pyutils/data_wrangler/transform.py`.  Rows
are represented by their composite sort key; `rank_by` and `ascending` are
kept for the length validation the source performs on them.  The result rows
are pairs `(rank, row)` — the rank column is placed first in the returned
column order. -/
def rank_and_sort {K : Type} [LinearOrder K] [DecidableEq K] (keys : List K)
    (rank_by : List String) (ascending : List Bool) (method : String) :
    Except String (List (Int × K)) :=
  if method ∉ method_options then Except.error (methodErrorMessage method)
  else if rank_by.length ≠ ascending.length then
    Except.error (lengthErrorMessage rank_by.length ascending.length)
  else
    let df_ranked := sort_values keys
    if method = "row_number" then
      Except.ok ((get_row_number_rankings df_ranked.length).zip df_ranked)
    else if method = "dense_rank" then
      (get_dense_rankings df_ranked).map (fun rankings => rankings.zip df_ranked)
    else
      (get_non_dense_rankings df_ranked).map (fun rankings => rankings.zip df_ranked)

/-- Dense ranks as the specification words them, for the rows after the
first: a row equal in key to its predecessor repeats the predecessor's rank,
a new key gets the predecessor's rank plus 1. -/
def denseSpecAux {K : Type} [DecidableEq K] (prev : K) (r : Int) : List K → List Int
  | [] => []
  | v :: vs =>
      (if prev = v then r else r + 1) ::
        denseSpecAux v (if prev = v then r else r + 1) vs

/-- Dense ranks as the specification words them: the first row gets rank 1. -/
def denseRanksSpec {K : Type} [DecidableEq K] : List K → List Int
  | [] => []
  | v0 :: rest => 1 :: denseSpecAux v0 1 rest

/-- Non-dense (SQL RANK) ranks as the specification words them, with `r` the
predecessor's rank and `g` the size so far of the tie-group the predecessor
belongs to: an equal key repeats `r`, a new key gets
`r + size_of_previous_group`. -/
def nonDenseSpecAux {K : Type} [DecidableEq K] (prev : K) (r : Int) (g : Nat) :
    List K → List Int
  | [] => []
  | v :: vs =>
      if prev = v then r :: nonDenseSpecAux v r (g + 1) vs
      else (r + (g : Int)) :: nonDenseSpecAux v (r + (g : Int)) 1 vs

/-- Non-dense ranks as the specification words them: the first row gets 1. -/
def nonDenseRanksSpec {K : Type} [DecidableEq K] : List K → List Int
  | [] => []
  | v0 :: rest => 1 :: nonDenseSpecAux v0 1 1 rest

/-- Helper for the size of the last tie-group: `g` is the size so far of the
tie-group `prev` belongs to. -/
def lastRunAux {K : Type} [DecidableEq K] (g : Nat) (prev : K) : List K → Nat
  | [] => g
  | v :: vs => if prev = v then lastRunAux (g + 1) v vs else lastRunAux 1 v vs

/-- Size of the final maximal run of equal adjacent elements (the last
tie-group of a key sequence). -/
def lastRunLength {K : Type} [DecidableEq K] : List K → Nat
  | [] => 0
  | v0 :: rest => lastRunAux 1 v0 rest

/-- Number of adjacent key changes after a first key `prev`. -/
def boundariesCount {K : Type} [DecidableEq K] (prev : K) : List K → Nat
  | [] => 0
  | v :: vs => (if prev = v then 0 else 1) + boundariesCount v vs

/-- The ranking properties claimed for `rank_and_sort` on an already sorted,
non-empty key sequence: all three methods succeed, keep the rows, and
produce non-decreasing ranks; `row_number` produces exactly `1..N` with no
repeats; `dense_rank` follows the dense recurrence, starts at 1 and its
maximum rank is the number of distinct keys; `non_dense_rank` follows the
RANK recurrence, starts at 1 and its maximum rank is
`N - size_of_last_tie_group + 1`. -/
def RankingConclusion {K : Type} [LinearOrder K] [DecidableEq K] (keys : List K)
    (rank_by : List String) (ascending : List Bool) : Prop :=
  (∃ out : List (Int × K),
    rank_and_sort keys rank_by ascending "row_number" = Except.ok out ∧
    out.map Prod.snd = keys ∧
    out.map Prod.fst = (List.range keys.length).map (fun i : Nat => (i : Int) + 1) ∧
    (out.map Prod.fst).Nodup ∧
    List.Sorted (· ≤ ·) (out.map Prod.fst)) ∧
  (∃ out : List (Int × K),
    rank_and_sort keys rank_by ascending "dense_rank" = Except.ok out ∧
    out.map Prod.snd = keys ∧
    out.map Prod.fst = denseRanksSpec keys ∧
    List.Sorted (· ≤ ·) (out.map Prod.fst) ∧
    (out.map Prod.fst).headD 0 = 1 ∧
    (out.map Prod.fst).getLastD 0 = (keys.toFinset.card : Int) ∧
    (∀ r ∈ out.map Prod.fst, r ≤ (keys.toFinset.card : Int))) ∧
  (∃ out : List (Int × K),
    rank_and_sort keys rank_by ascending "non_dense_rank" = Except.ok out ∧
    out.map Prod.snd = keys ∧
    out.map Prod.fst = nonDenseRanksSpec keys ∧
    List.Sorted (· ≤ ·) (out.map Prod.fst) ∧
    (out.map Prod.fst).headD 0 = 1 ∧
    (out.map Prod.fst).getLastD 0 = (keys.length : Int) - (lastRunLength keys : Int) + 1 ∧
    (∀ r ∈ out.map Prod.fst,
      r ≤ (keys.length : Int) - (lastRunLength keys : Int) + 1))

/-! ## General list helpers -/

theorem getD_map_range {α : Type} (f : Nat → α) {n i : Nat} (d : α) (h : i < n) :
    ((List.range n).map f).getD i d = f i := by
  rw [List.getD_eq_getElem _ _ (by simpa using h)]
  simp

theorem getLastD_map_range {α : Type} (f : Nat → α) (n : Nat) (d : α) :
    ((List.range (n + 1)).map f).getLastD d = f n := by
  rw [List.range_succ, List.map_append]
  simp

theorem map_range_succ_shift (a step : Int) (n : Nat) :
    (a + step) :: (List.range n).map (fun i : Nat => a + step + ((i : Int) + 1) * step) =
      (List.range (n + 1)).map (fun i : Nat => a + ((i : Int) + 1) * step) := by
  rw [List.range_succ_eq_map, List.map_cons, List.map_map]
  congr 1
  · push_cast
    ring
  · apply List.map_congr_left
    intro i _
    simp only [Function.comp_apply]
    push_cast
    ring

/-! ## Partitioning: loop lemmas and closed form -/

theorem partitionLoop1_concat (m : Int) :
    ∀ (n : Nat) (l : List Int) (a : Int),
      partitionLoop1 m n (l ++ [a]) =
        (l ++ [a]) ++ (List.range n).map (fun i : Nat => a + ((i : Int) + 1) * (m + 1))
  | 0, l, a => by simp [partitionLoop1]
  | n + 1, l, a => by
      rw [partitionLoop1, List.getLastD_concat,
        partitionLoop1_concat m n (l ++ [a]) (a + (m + 1)),
        List.append_assoc (l ++ [a]), List.singleton_append, map_range_succ_shift]

theorem partitionLoop1_length (m : Int) :
    ∀ (n : Nat) (l : List Int), (partitionLoop1 m n l).length = l.length + n
  | 0, _ => by simp [partitionLoop1]
  | n + 1, l => by
      rw [partitionLoop1, partitionLoop1_length m n]
      simp
      omega

theorem partitionLoop2_ok (m P : Int) :
    ∀ (k fuel : Nat) (l : List Int), l ≠ [] → k + 1 ≤ fuel →
      (l.length : Int) + k = P + 1 →
      partitionLoop2 m P fuel l =
        some (l ++ (List.range k).map (fun i : Nat => l.getLastD 0 + ((i : Int) + 1) * m))
  | 0, fuel, l, _, hfuel, hlen => by
      cases fuel with
      | zero => omega
      | succ f =>
          rw [partitionLoop2, if_pos (by omega)]
          simp
  | k + 1, fuel, l, hne, hfuel, hlen => by
      cases fuel with
      | zero => omega
      | succ f =>
          rw [partitionLoop2, if_neg (by omega)]
          rw [partitionLoop2_ok m P k f (l ++ [l.getLastD 0 + m]) (by simp)
            (by omega) (by simp; omega)]
          rw [List.getLastD_concat, List.append_assoc, List.singleton_append,
            map_range_succ_shift]

theorem partitionLoop2_diverge (m P : Int) :
    ∀ (fuel : Nat) (l : List Int), P + 1 < (l.length : Int) →
      partitionLoop2 m P fuel l = none
  | 0, _, _ => rfl
  | fuel + 1, l, h => by
      rw [partitionLoop2, if_neg (by omega)]
      exact partitionLoop2_diverge m P fuel _ (by simp; omega)

theorem partitionLoop1_start (m : Int) (r : Nat) :
    partitionLoop1 m r [0] = (List.range (r + 1)).map (fun i : Nat => (i : Int) * (m + 1)) := by
  have h := partitionLoop1_concat m r [] 0
  simp only [List.nil_append] at h
  rw [h, List.range_succ_eq_map, List.map_cons, List.map_map, List.singleton_append]
  congr 1
  · simp
  · apply List.map_congr_left
    intro i _
    simp only [Function.comp_apply]
    push_cast
    ring

theorem partition_spec_split (L P : Int) (hL : 0 ≤ L) (hP : 1 ≤ P) :
    partitionBoundariesSpec L P =
      (List.range ((L.fmod P).toNat + 1)).map (fun i : Nat => (i : Int) * (L.fdiv P + 1)) ++
        (List.range (P.toNat - (L.fmod P).toNat)).map
          (fun i : Nat =>
            ((L.fmod P).toNat : Int) * (L.fdiv P + 1) + ((i : Int) + 1) * L.fdiv P) := by
  have hr0 : 0 ≤ L.fmod P := Int.fmod_nonneg hL (by omega)
  have hrP : L.fmod P < P := Int.fmod_lt_of_pos L (by omega)
  have hsplit : P.toNat + 1 = ((L.fmod P).toNat + 1) + (P.toNat - (L.fmod P).toNat) := by
    omega
  rw [partitionBoundariesSpec, hsplit, List.range_add, List.map_append, List.map_map]
  congr 1
  · apply List.map_congr_left
    intro i hi
    rw [List.mem_range] at hi
    rw [min_eq_left (by omega)]
    ring
  · apply List.map_congr_left
    intro i hi
    simp only [Function.comp_apply]
    rw [min_eq_right (by push_cast; omega)]
    push_cast
    have hrc : ((L.fmod P).toNat : Int) = L.fmod P := Int.toNat_of_nonneg hr0
    rw [hrc]
    ring

theorem partition_closed_form (L P : Int) (hL : 0 ≤ L) (hP : 1 ≤ P) :
    get_indices_for_partitioning L P (P.toNat + 1) =
      some (Except.ok (partitionBoundariesSpec L P)) := by
  have hr0 : 0 ≤ L.fmod P := Int.fmod_nonneg hL (by omega)
  have hrP : L.fmod P < P := Int.fmod_lt_of_pos L (by omega)
  rw [get_indices_for_partitioning, if_neg (by omega)]
  simp only
  rw [partitionLoop1_start]
  rw [partitionLoop2_ok (L.fdiv P) P (P.toNat - (L.fmod P).toNat) (P.toNat + 1) _
    (by apply List.ne_nil_of_length_pos; simp) (by omega) (by simp; omega)]
  rw [getLastD_map_range]
  simp only [Option.map_some']
  rw [partition_spec_split L P hL hP]

theorem partition_size_formula (L P : Int) (hL : 0 ≤ L) (hP : 1 ≤ P) :
    ∀ i : Nat, i < P.toNat →
      partitionSize (partitionBoundariesSpec L P) i =
        L.fdiv P + (if (i : Int) < L.fmod P then 1 else 0) := by
  have hr0 : 0 ≤ L.fmod P := Int.fmod_nonneg hL (by omega)
  intro i hi
  rw [partitionSize, partitionBoundariesSpec,
    getD_map_range _ _ (by omega), getD_map_range _ _ (by omega)]
  rcases lt_or_le (i : Int) (L.fmod P) with h | h
  · rw [if_pos h, min_eq_left (by omega), min_eq_left (by omega)]
    push_cast
    ring
  · rw [if_neg (by omega), min_eq_right h, min_eq_right (by push_cast; omega)]
    push_cast
    ring

/-- C1: for every `L ≥ 0` and `P ≥ 1`, `get_indices_for_partitioning` returns
the `P + 1` non-decreasing integer boundaries `base * i + min i remainder`
(with `base = L // P` and `remainder = L % P`), whose first element is 0 and
last element is `L`, with the first `remainder` partitions of size `base + 1`
and the remaining `P - remainder` partitions of size `base`, so the largest
and smallest partition sizes differ by at most 1 and larger partitions come
first. -/
theorem partitioning_boundaries_correct (L P : Int) (hL : 0 ≤ L) (hP : 1 ≤ P) :
    PartitionConclusion L P := by
  have hr0 : 0 ≤ L.fmod P := Int.fmod_nonneg hL (by omega)
  have hrP : L.fmod P < P := Int.fmod_lt_of_pos L (by omega)
  have hm0 : 0 ≤ L.fdiv P := Int.fdiv_nonneg hL (by omega)
  have hPc : ((P.toNat : Int)) = P := Int.toNat_of_nonneg (by omega)
  refine ⟨partition_closed_form L P hL hP, by simp [partitionBoundariesSpec], ?_, ?_, ?_,
    partition_size_formula L P hL hP, ?_⟩
  · rw [partitionBoundariesSpec, List.range_succ_eq_map, List.map_cons]
    simp [min_eq_left hr0]
  · rw [partitionBoundariesSpec, getLastD_map_range, hPc, min_eq_right (le_of_lt hrP)]
    linear_combination Int.fmod_add_fdiv L P
  · rw [partitionBoundariesSpec]
    show List.Pairwise _ _
    refine List.pairwise_map.mpr ((List.pairwise_lt_range _).imp ?_)
    intro a b hab
    have h1 : L.fdiv P * (a : Int) ≤ L.fdiv P * (b : Int) :=
      mul_le_mul_of_nonneg_left (by exact_mod_cast le_of_lt hab) hm0
    have h2 : min (a : Int) (L.fmod P) ≤ min (b : Int) (L.fmod P) :=
      min_le_min (by exact_mod_cast le_of_lt hab) le_rfl
    exact add_le_add h1 h2
  · intro i j hij hj
    rw [partition_size_formula L P hL hP i (by omega),
      partition_size_formula L P hL hP j hj]
    have hc : (i : Int) ≤ (j : Int) := by exact_mod_cast hij
    split_ifs <;> omega

/-- Witness for C1 at the specification's example `L = 10`, `P = 3`. -/
theorem partitioning_boundaries_correct_witness :
    (0 : Int) ≤ 10 ∧ (1 : Int) ≤ 3 ∧ PartitionConclusion 10 3 :=
  ⟨by decide, by decide, partitioning_boundaries_correct 10 3 (by decide) (by decide)⟩

/-- C7: `get_indices_for_partitioning` raises the domain error
"Number of partitions cannot be 0" exactly when `num_partitions = 0`;
`L = 0` with `P ≥ 1` succeeds with all-zero boundaries; and `0 ≤ L < P`
succeeds with the first `L` partitions of size 1 and the remaining
partitions empty (size 0), so the non-empty partitions come first. -/
theorem partitioning_error_iff_zero_partitions :
    (∀ (L : Int) (fuel : Nat),
      get_indices_for_partitioning L 0 fuel =
        some (Except.error "Number of partitions cannot be 0")) ∧
    (∀ (L P : Int) (fuel : Nat) (msg : String), P ≠ 0 →
      get_indices_for_partitioning L P fuel ≠ some (Except.error msg)) ∧
    (∀ P : Int, 1 ≤ P →
      get_indices_for_partitioning 0 P (P.toNat + 1) =
        some (Except.ok (List.replicate (P.toNat + 1) 0))) ∧
    (∀ L P : Int, 0 ≤ L → L < P →
      ∃ l, get_indices_for_partitioning L P (P.toNat + 1) = some (Except.ok l) ∧
        ∀ i : Nat, i < P.toNat →
          partitionSize l i = if (i : Int) < L then 1 else 0) := by
  refine ⟨?_, ?_, ?_, ?_⟩
  · intro L fuel
    rw [get_indices_for_partitioning, if_pos rfl]
  · intro L P fuel msg hP
    rw [get_indices_for_partitioning, if_neg hP]
    simp
  · intro P hP
    rw [partition_closed_form 0 P le_rfl hP]
    have hrep : partitionBoundariesSpec 0 P = List.replicate (P.toNat + 1) 0 := by
      rw [partitionBoundariesSpec, Int.zero_fdiv, Int.zero_fmod, List.eq_replicate_iff]
      constructor
      · simp
      · intro b hb
        rw [List.mem_map] at hb
        obtain ⟨i, _, hi⟩ := hb
        rw [← hi, zero_mul, zero_add, min_eq_right (by omega)]
    rw [hrep]
  · intro L P hL hLP
    have hP : 1 ≤ P := by omega
    refine ⟨partitionBoundariesSpec L P, partition_closed_form L P hL hP, ?_⟩
    intro i hi
    rw [partition_size_formula L P hL hP i hi,
      Int.fdiv_eq_ediv _ (by omega), Int.ediv_eq_zero_of_lt hL hLP,
      Int.fmod_eq_emod _ (by omega), Int.emod_eq_of_lt hL hLP]
    simp

/-- Witness for C7: the error at `P = 0`, no error at `P = 2`, all-zero
boundaries at `L = 0, P = 3`, and empty partitions at `L = 2 < P = 5`. -/
theorem partitioning_error_iff_zero_partitions_witness :
    get_indices_for_partitioning 5 0 3 =
        some (Except.error "Number of partitions cannot be 0") ∧
    get_indices_for_partitioning 5 2 4 ≠
        some (Except.error "Number of partitions cannot be 0") ∧
    get_indices_for_partitioning 0 3 ((3 : Int).toNat + 1) =
        some (Except.ok (List.replicate ((3 : Int).toNat + 1) 0)) ∧
    (∃ l, get_indices_for_partitioning 2 5 ((5 : Int).toNat + 1) = some (Except.ok l) ∧
      ∀ i : Nat, i < (5 : Int).toNat →
        partitionSize l i = if (i : Int) < 2 then 1 else 0) :=
  ⟨partitioning_error_iff_zero_partitions.1 5 3,
   partitioning_error_iff_zero_partitions.2.1 5 2 4 _ (by decide),
   partitioning_error_iff_zero_partitions.2.2.1 3 (by decide),
   partitioning_error_iff_zero_partitions.2.2.2 2 5 (by decide) (by decide)⟩

/-- C8: with `L ≥ 0` and `P ≥ 1` both loops terminate (fuel `P + 1` suffices
for the second loop), while for every negative `num_partitions` — which
passes the only validation, the `P == 0` check — the second loop's exit
condition `len(indices) == num_partitions + 1` is never reached (the length
only grows and is already larger), so the call yields `none` for every fuel
value: the function does not terminate. -/
theorem partitioning_termination_and_divergence :
    (∀ L P : Int, 0 ≤ L → 1 ≤ P →
      ∃ l, get_indices_for_partitioning L P (P.toNat + 1) = some (Except.ok l)) ∧
    (∀ (L P : Int) (fuel : Nat), P < 0 →
      get_indices_for_partitioning L P fuel = none) := by
  constructor
  · intro L P hL hP
    exact ⟨partitionBoundariesSpec L P, partition_closed_form L P hL hP⟩
  · intro L P fuel hP
    rw [get_indices_for_partitioning, if_neg (by omega)]
    simp only
    rw [partitionLoop2_diverge _ P fuel _ (by rw [partitionLoop1_length]; simp; omega)]
    rfl

/-- Witness for C8: termination at `L = 10, P = 3`, divergence at `P = -2`. -/
theorem partitioning_termination_and_divergence_witness :
    (∃ l, get_indices_for_partitioning 10 3 ((3 : Int).toNat + 1) = some (Except.ok l)) ∧
    get_indices_for_partitioning 5 (-2) 100 = none :=
  ⟨partitioning_termination_and_divergence.1 10 3 (by decide) (by decide),
   partitioning_termination_and_divergence.2 5 (-2) 100 (by decide)⟩

/-! ## Date-wise bucketer: loop lemmas -/

theorem forwardLoop_closed (s : Int) (inc : Bool) :
    ∀ (n : Nat) (cur : Int),
      forwardLoop s inc n cur =
        (List.range n).map (fun k : Nat =>
          (cur + (k : Int) * bucketStep s inc,
           cur + (k : Int) * bucketStep s inc + (s - 1)))
  | 0, cur => by simp [forwardLoop]
  | n + 1, cur => by
      rw [forwardLoop, forwardLoop_closed s inc n, List.range_succ_eq_map, List.map_cons,
        List.map_map]
      congr 1
      · simp
      · apply List.map_congr_left
        intro k _
        simp only [Function.comp_apply, Prod.mk.injEq, bucketStep]
        constructor <;> (push_cast; split_ifs <;> ring)

theorem backwardLoop_closed (s : Int) (inc : Bool) :
    ∀ (n : Nat) (cur : Int),
      backwardLoop s inc n cur =
        (List.range n).map (fun k : Nat =>
          (cur - (k : Int) * bucketStep s inc - (s - 1),
           cur - (k : Int) * bucketStep s inc))
  | 0, cur => by simp [backwardLoop]
  | n + 1, cur => by
      rw [backwardLoop, backwardLoop_closed s inc n, List.range_succ_eq_map, List.map_cons,
        List.map_map]
      congr 1
      · simp
      · apply List.map_congr_left
        intro k _
        simp only [Function.comp_apply, Prod.mk.injEq, bucketStep]
        constructor <;> (push_cast; split_ifs <;> ring)

theorem forwardLoop_length (s : Int) (inc : Bool) (n : Nat) (cur : Int) :
    (forwardLoop s inc n cur).length = n := by
  rw [forwardLoop_closed]
  simp

theorem backwardLoop_length (s : Int) (inc : Bool) (n : Nat) (cur : Int) :
    (backwardLoop s inc n cur).length = n := by
  rw [backwardLoop_closed]
  simp

theorem forwardLoop_chain (s : Int) (inc : Bool) (R : Int × Int → Int × Int → Prop)
    (hR : ∀ cur : Int, R (cur, cur + (s - 1))
      (cur + bucketStep s inc, cur + bucketStep s inc + (s - 1))) :
    ∀ (n : Nat) (cur : Int), List.Chain' R (forwardLoop s inc n cur)
  | 0, _ => List.chain'_nil
  | n + 1, cur => by
      rw [forwardLoop]
      refine List.chain'_cons'.mpr ⟨?_, forwardLoop_chain s inc R hR n _⟩
      intro y hy
      cases n with
      | zero => simp [forwardLoop] at hy
      | succ m =>
          rw [forwardLoop] at hy
          simp only [List.head?_cons, Option.mem_def, Option.some.injEq] at hy
          rw [← hy]
          exact hR cur

theorem backwardLoop_chain (s : Int) (inc : Bool) (R : Int × Int → Int × Int → Prop)
    (hR : ∀ cur : Int, R (cur - (s - 1), cur)
      (cur - bucketStep s inc - (s - 1), cur - bucketStep s inc)) :
    ∀ (n : Nat) (cur : Int), List.Chain' R (backwardLoop s inc n cur)
  | 0, _ => List.chain'_nil
  | n + 1, cur => by
      rw [backwardLoop]
      refine List.chain'_cons'.mpr ⟨?_, backwardLoop_chain s inc R hR n _⟩
      intro y hy
      cases n with
      | zero => simp [backwardLoop] at hy
      | succ m =>
          rw [backwardLoop] at hy
          simp only [List.head?_cons, Option.mem_def, Option.some.injEq] at hy
          rw [← hy]
          exact hR cur

/-- C3: for every anchor, positive bucket size and positive bucket count, the
default (`is_inclusive=False`) day bucketer's forward bucket `k` is
`(anchor + k*size, anchor + k*size + (size - 1))`; consecutive buckets in
either direction satisfy `bucket[i].end + 1 == bucket[i+1].start`; the
backward result anchors its final bucket's end at the anchor date; and both
results are in ascending chronological order. -/
theorem day_bucketer_correct (anchor size n : Int) (hs : 1 ≤ size) (hn : 1 ≤ n) :
    DayBucketConclusion anchor size n := by
  have hst : bucketStep size false = size := by simp [bucketStep]
  refine ⟨?_, ?_, ?_, ?_, ?_, ?_, ?_⟩
  · rw [DateWiseBucketer.get_forward_buckets, forwardLoop_closed]
    apply List.map_congr_left
    intro k _
    rw [hst]
  · apply forwardLoop_chain
    intro cur
    simp only [hst]
    show cur + size = cur + (size - 1) + 1
    ring
  · rw [DateWiseBucketer.get_backward_buckets]
    refine List.chain'_reverse.mpr ?_
    apply backwardLoop_chain
    intro cur
    show cur - (size - 1) = cur - bucketStep size false + 1
    rw [hst]
    ring
  · rw [DateWiseBucketer.get_backward_buckets]
    apply List.ne_nil_of_length_pos
    rw [List.length_reverse, backwardLoop_length]
    omega
  · rw [DateWiseBucketer.get_backward_buckets]
    obtain ⟨m, hm⟩ : ∃ m, n.toNat = m + 1 := ⟨n.toNat - 1, by omega⟩
    rw [hm, backwardLoop, List.getLastD_eq_getLast?, List.getLast?_reverse]
    simp
  · rw [DateWiseBucketer.get_forward_buckets, forwardLoop_closed]
    show List.Pairwise _ _
    refine List.pairwise_map.mpr ((List.pairwise_lt_range _).imp ?_)
    intro a b hab
    rw [hst]
    dsimp only
    have hm : (a : Int) * size ≤ (b : Int) * size :=
      mul_le_mul_of_nonneg_right (by exact_mod_cast le_of_lt hab) (by omega)
    exact ⟨by linarith, by linarith⟩
  · rw [DateWiseBucketer.get_backward_buckets, backwardLoop_closed]
    show List.Pairwise _ _
    rw [List.pairwise_reverse]
    refine List.pairwise_map.mpr ((List.pairwise_lt_range _).imp ?_)
    intro a b hab
    rw [hst]
    dsimp only
    have hm : (a : Int) * size ≤ (b : Int) * size :=
      mul_le_mul_of_nonneg_right (by exact_mod_cast le_of_lt hab) (by omega)
    exact ⟨by linarith, by linarith⟩

/-- Witness for C3 at the specification's example: anchor day 0, 7-day
buckets, 3 buckets. -/
theorem day_bucketer_correct_witness :
    (1 : Int) ≤ 7 ∧ (1 : Int) ≤ 3 ∧ DayBucketConclusion 0 7 3 :=
  ⟨by decide, by decide, day_bucketer_correct 0 7 3 (by decide) (by decide)⟩

/-- C9: with `is_inclusive=True`, bucket size ≥ 2 and bucket count ≥ 2,
consecutive buckets of either direction share exactly their boundary day
(`bucket[i+1].start = bucket[i].end` with strictly increasing starts and
ends), so the buckets are contiguous but not disjoint, while every bucket
still satisfies `start ≤ end`. -/
theorem inclusive_bucketer_buckets_overlap (anchor size n : Int)
    (hs : 2 ≤ size) (hn : 2 ≤ n) : InclusiveBucketConclusion anchor size n := by
  have hst : bucketStep size true = size - 1 := by simp [bucketStep]
  refine ⟨?_, ?_, ?_, ?_⟩
  · apply forwardLoop_chain
    intro cur
    simp only [hst]
    refine ⟨by ring, by omega, by omega⟩
  · rw [DateWiseBucketer.get_backward_buckets]
    refine List.chain'_reverse.mpr ?_
    apply backwardLoop_chain
    intro cur
    refine ⟨?_, ?_, ?_⟩ <;> simp only [hst] <;> omega
  · rw [DateWiseBucketer.get_forward_buckets, forwardLoop_closed]
    intro p hp
    rw [List.mem_map] at hp
    obtain ⟨k, -, rfl⟩ := hp
    show anchor + (k : Int) * bucketStep size true ≤
      anchor + (k : Int) * bucketStep size true + (size - 1)
    linarith
  · rw [DateWiseBucketer.get_backward_buckets, backwardLoop_closed]
    intro p hp
    rw [List.mem_reverse, List.mem_map] at hp
    obtain ⟨k, -, rfl⟩ := hp
    show anchor - (k : Int) * bucketStep size true - (size - 1) ≤
      anchor - (k : Int) * bucketStep size true
    linarith

/-- Witness for C9: anchor day 0, 7-day buckets, 3 buckets, inclusive. -/
theorem inclusive_bucketer_buckets_overlap_witness :
    (2 : Int) ≤ 7 ∧ (2 : Int) ≤ 3 ∧ InclusiveBucketConclusion 0 7 3 :=
  ⟨by decide, by decide, inclusive_bucketer_buckets_overlap 0 7 3 (by decide) (by decide)⟩

/-- C5 counterexample: passing the unsupported representation selector
`"bogus"` as the `as_strings` argument of the date bucketer does not fail:
the call succeeds (the truthy value selects the string representation and
the two 7-day buckets are produced), so no Invalid-Option error is raised. -/
theorem bucketer_accepts_bogus_selector :
    DateWiseBucketer.get_forward_buckets_any_selector 0 7 2 false (PyVal.pystr "bogus") =
      Except.ok (true, [(0, 6), (7, 13)]) := by
  rfl

/-- C5 amended: the date bucketer exposes no validated direction or
representation option — direction is chosen by calling the forward or
backward method, and any value passed for `as_strings` is accepted (only its
truthiness is used), the call always succeeding with `num_buckets` buckets;
the library's Invalid-Option helper `raise_exception_if_invalid_option`
(never called by the bucketer) raises an error exactly when the value is
outside the allowed set, with a message naming the parameter, the received
value, and the allowed set. -/
theorem bucketer_no_option_validation :
    (∀ (d s n : Int) (inc : Bool) (sel : PyVal),
      ∃ out : Bool × List (Int × Int),
        DateWiseBucketer.get_forward_buckets_any_selector d s n inc sel = Except.ok out ∧
        out.1 = sel.truthy ∧ out.2.length = n.toNat) ∧
    (∀ (opt_name value : String) (valids : List String),
      (raise_exception_if_invalid_option opt_name value valids = Except.ok () ↔
        value ∈ valids) ∧
      (value ∉ valids →
        raise_exception_if_invalid_option opt_name value valids =
          Except.error (invalidOptionMessage opt_name value valids) ∧
        (∃ s1 s2 : String, invalidOptionMessage opt_name value valids = s1 ++ opt_name ++ s2) ∧
        (∃ s1 s2 : String, invalidOptionMessage opt_name value valids = s1 ++ value ++ s2) ∧
        (∃ s1 s2 : String,
          invalidOptionMessage opt_name value valids = s1 ++ pyListRepr valids ++ s2))) := by
  constructor
  · intro d s n inc sel
    exact ⟨(sel.truthy, forwardLoop s inc n.toNat d), rfl, rfl, forwardLoop_length s inc _ d⟩
  · intro opt_name value valids
    constructor
    · rw [raise_exception_if_invalid_option]
      split_ifs with h
      · simp [h]
      · simp [h]
    · intro hv
      refine ⟨by rw [raise_exception_if_invalid_option, if_neg hv], ?_, ?_, ?_⟩
      · exact ⟨"Expected `", "` to be in " ++ pyListRepr valids ++ ", but got " ++ value,
          by rw [invalidOptionMessage]; simp [String.append_assoc]⟩
      · exact ⟨"Expected `" ++ opt_name ++ "` to be in " ++ pyListRepr valids ++ ", but got ",
          "", by rw [invalidOptionMessage]; simp [String.append_assoc]⟩
      · exact ⟨"Expected `" ++ opt_name ++ "` to be in ", ", but got " ++ value,
          by rw [invalidOptionMessage]; simp [String.append_assoc]⟩

/-- Witness for the amended C5: a concrete accepted selector and a concrete
rejected option value. -/
theorem bucketer_no_option_validation_witness :
    (∃ out : Bool × List (Int × Int),
      DateWiseBucketer.get_forward_buckets_any_selector 0 7 3 false (PyVal.pystr "x") =
        Except.ok out ∧ out.1 = (PyVal.pystr "x").truthy ∧ out.2.length = (3 : Int).toNat) ∧
    ("bogus" ∉ ["row_number", "dense_rank", "non_dense_rank"] ∧
      raise_exception_if_invalid_option "method" "bogus"
          ["row_number", "dense_rank", "non_dense_rank"] =
        Except.error (invalidOptionMessage "method" "bogus"
          ["row_number", "dense_rank", "non_dense_rank"])) :=
  ⟨bucketer_no_option_validation.1 0 7 3 false (PyVal.pystr "x"),
   by decide,
   ((bucketer_no_option_validation.2 "method" "bogus"
      ["row_number", "dense_rank", "non_dense_rank"]).2 (by decide)).1⟩

/-! ## Month-wise bucketer proofs -/

theorem monthEndDate_month_index (M : Int) :
    12 * (monthEndDate M).year + ((monthEndDate M).month - 1) = M := by
  rw [monthEndDate]
  simp only
  linear_combination Int.fmod_add_fdiv M 12

theorem monthBucket_wellFormed (M : Int) : MonthBucketWellFormed (monthBucket M) := by
  have h0 : 0 ≤ M.fmod 12 := by
    rw [Int.fmod_eq_emod _ (by norm_num)]
    exact Int.emod_nonneg M (by norm_num)
  have h12 : M.fmod 12 < 12 := Int.fmod_lt_of_pos M (by norm_num)
  exact ⟨rfl, rfl, rfl, by simp [monthBucket, period_to_month_wise_bucket, monthEndDate]; omega,
    by simp [monthBucket, period_to_month_wise_bucket, monthEndDate]; omega, rfl⟩

/-- C4: every month bucket of the month-wise bucketer spans the full calendar
month `k` months forward (forward direction) or backward (backward
direction) of the anchor month, with start = day 1 and end = the last
calendar day of that same month; February ends are 29 in the leap year 2016
and 28 in the non-leap year 2017. -/
theorem month_bucketer_correct :
    (∀ year month n : Int, 1 ≤ month → month ≤ 12 → MonthBucketConclusion year month n) ∧
    monthBucket (12 * 2016 + 1) = (⟨2016, 2, 1⟩, ⟨2016, 2, 29⟩) ∧
    monthBucket (12 * 2017 + 1) = (⟨2017, 2, 1⟩, ⟨2017, 2, 28⟩) := by
  refine ⟨?_, by decide, by decide⟩
  intro year month n h1 h12
  refine ⟨?_, ?_, ?_, ?_, monthEndDate_month_index, ?_⟩
  · rw [MonthWiseBucketer.get_forward_buckets, date_range_month_ends, List.map_map]
    apply List.map_congr_left
    intro k _
    simp [monthBucket, one_mul]
  · rw [MonthWiseBucketer.get_backward_buckets, date_range_month_ends, List.map_map]
    congr 1
    apply List.map_congr_left
    intro k _
    simp [monthBucket, Int.sub_eq_add_neg]
  · intro p hp
    rw [MonthWiseBucketer.get_forward_buckets, List.mem_map] at hp
    obtain ⟨d, hd, rfl⟩ := hp
    rw [date_range_month_ends, List.mem_map] at hd
    obtain ⟨k, -, rfl⟩ := hd
    exact monthBucket_wellFormed _
  · intro p hp
    rw [MonthWiseBucketer.get_backward_buckets, List.mem_reverse, List.mem_map] at hp
    obtain ⟨d, hd, rfl⟩ := hp
    rw [date_range_month_ends, List.mem_map] at hd
    obtain ⟨k, -, rfl⟩ := hd
    exact monthBucket_wellFormed _
  · intro hn
    obtain ⟨m, hm⟩ : ∃ m, n.toNat = m + 1 := ⟨n.toNat - 1, by omega⟩
    rw [MonthWiseBucketer.get_forward_buckets, date_range_month_ends, hm,
      List.range_succ_eq_map, List.map_cons, List.map_cons, List.headD_cons]
    have ha : 12 * year + (month - 1) + 1 * ((0 : Nat) : Int) =
        (month - 1) + 12 * year := by
      push_cast
      ring
    have hy : ((month - 1) + 12 * year).fdiv 12 = year := by
      rw [Int.fdiv_eq_ediv _ (by norm_num),
        Int.add_mul_ediv_left _ _ (by norm_num : (12 : Int) ≠ 0),
        Int.ediv_eq_zero_of_lt (by omega) (by omega), zero_add]
    have hmn : ((month - 1) + 12 * year).fmod 12 + 1 = month := by
      rw [Int.fmod_eq_emod _ (by norm_num), Int.add_mul_emod_self_left,
        Int.emod_eq_of_lt (by omega) (by omega)]
      omega
    dsimp only [period_to_month_wise_bucket, monthEndDate]
    rw [ha, hy, hmn]

/-- Witness for C4: anchor February 2016 (a leap year), 3 buckets. -/
theorem month_bucketer_correct_witness :
    (1 : Int) ≤ 2 ∧ (2 : Int) ≤ 12 ∧ MonthBucketConclusion 2016 2 3 :=
  ⟨by decide, by decide, month_bucketer_correct.1 2016 2 3 (by decide) (by decide)⟩

/-! ## Ranking engine: helper lemmas -/

theorem getLastD_cons_of_ne_nil {α : Type} (a d : α) {l : List α} (h : l ≠ []) :
    (a :: l).getLastD d = l.getLastD d := by
  rw [List.getLastD_cons, List.getLastD_eq_getLast?, List.getLastD_eq_getLast?]
  cases hl : l.getLast? with
  | none => exact absurd (List.getLast?_eq_none_iff.mp hl) h
  | some x => rfl

theorem sorted_le_of_getLast?_eq {l : List Int} (hs : List.Sorted (· ≤ ·) l) :
    ∀ x ∈ l, ∀ y : Int, l.getLast? = some y → x ≤ y := by
  induction l with
  | nil => intro x hx; cases hx
  | cons a t ih =>
      intro x hx y hy
      cases t with
      | nil =>
          simp only [List.mem_singleton] at hx
          simp only [List.getLast?_singleton, Option.some.injEq] at hy
          omega
      | cons b t2 =>
          rw [List.getLast?_cons_cons] at hy
          rw [List.sorted_cons] at hs
          rcases List.mem_cons.mp hx with rfl | hx2
          · have hb : x ≤ b := hs.1 b (List.mem_cons_self _ _)
            have hby := ih hs.2 b (List.mem_cons_self _ _) y hy
            omega
          · exact ih hs.2 x hx2 y hy

theorem sorted_le_getLastD {l : List Int} (hs : List.Sorted (· ≤ ·) l) {x : Int}
    (hx : x ∈ l) : x ≤ l.getLastD 0 := by
  rw [List.getLastD_eq_getLast?]
  cases hl : l.getLast? with
  | none => exact absurd (List.getLast?_eq_none_iff.mp hl) (List.ne_nil_of_mem hx)
  | some y => exact sorted_le_of_getLast?_eq hs x hx y hl

theorem sorted_append_last {l : List Int} (x : Int) (hs : List.Sorted (· ≤ ·) l)
    (hx : ∀ a ∈ l, a ≤ x) : List.Sorted (· ≤ ·) (l ++ [x]) := by
  show List.Pairwise _ _
  rw [List.pairwise_append]
  refine ⟨hs, List.pairwise_singleton _ _, ?_⟩
  intro a ha b hb
  rw [List.mem_singleton] at hb
  subst hb
  exact hx a ha

/-! ## Ranking engine: the loop results equal the specified recurrences -/

theorem denseLoop_spec {K : Type} [DecidableEq K] :
    ∀ (vs : List K) (acc : List Int) (prev : K),
      denseLoop vs acc prev = acc ++ denseSpecAux prev (acc.getLastD 0) vs
  | [], acc, prev => by simp [denseLoop, denseSpecAux]
  | v :: vs, acc, prev => by
      rw [denseLoop, denseLoop_spec vs _ v, List.getLastD_concat, denseSpecAux,
        List.append_assoc, List.singleton_append]

theorem nonDenseLoop_spec {K : Type} [DecidableEq K] :
    ∀ (vs : List K) (acc : List Int) (prev : K) (g : Nat), acc ≠ [] →
      List.Sorted (· ≤ ·) acc → acc.count (acc.getLastD 0) = g → 1 ≤ g →
      nonDenseLoop vs acc prev = acc ++ nonDenseSpecAux prev (acc.getLastD 0) g vs
  | [], acc, prev, g, _, _, _, _ => by simp [nonDenseLoop, nonDenseSpecAux]
  | v :: vs, acc, prev, g, hne, hs, hcount, hg => by
      rw [nonDenseLoop, nonDenseSpecAux]
      by_cases hpv : prev = v
      · rw [if_pos hpv, if_pos hpv,
          nonDenseLoop_spec vs (acc ++ [acc.getLastD 0]) v (g + 1) (by simp)
            (sorted_append_last _ hs (fun a ha => sorted_le_getLastD hs ha))
            (by rw [List.getLastD_concat, List.count_append, hcount]; simp)
            (by omega),
          List.getLastD_concat, List.append_assoc, List.singleton_append]
      · rw [if_neg hpv, if_neg hpv, hcount]
        have hnotmem : acc.getLastD 0 + (g : Int) ∉ acc := by
          intro hmem
          have hle := sorted_le_getLastD hs hmem
          omega
        rw [nonDenseLoop_spec vs (acc ++ [acc.getLastD 0 + (g : Int)]) v 1 (by simp)
            (sorted_append_last _ hs (fun a ha => by
              have hle := sorted_le_getLastD hs ha
              omega))
            (by rw [List.getLastD_concat, List.count_append,
                List.count_eq_zero.mpr hnotmem]; simp)
            le_rfl,
          List.getLastD_concat, List.append_assoc, List.singleton_append]

/-! ## Ranking engine: properties of the specified recurrences -/

theorem denseSpecAux_length {K : Type} [DecidableEq K] :
    ∀ (vs : List K) (prev : K) (r : Int), (denseSpecAux prev r vs).length = vs.length
  | [], _, _ => rfl
  | v :: vs, prev, r => by
      rw [denseSpecAux, List.length_cons, denseSpecAux_length vs, List.length_cons]

theorem nonDenseSpecAux_length {K : Type} [DecidableEq K] :
    ∀ (vs : List K) (prev : K) (r : Int) (g : Nat),
      (nonDenseSpecAux prev r g vs).length = vs.length
  | [], _, _, _ => rfl
  | v :: vs, prev, r, g => by
      rw [nonDenseSpecAux]
      by_cases h : prev = v
      · rw [if_pos h, List.length_cons, nonDenseSpecAux_length vs, List.length_cons]
      · rw [if_neg h, List.length_cons, nonDenseSpecAux_length vs, List.length_cons]

theorem denseSpecAux_chain {K : Type} [DecidableEq K] :
    ∀ (vs : List K) (prev : K) (r : Int),
      List.Chain' (· ≤ ·) (r :: denseSpecAux prev r vs)
  | [], _, _ => List.chain'_singleton _
  | v :: vs, prev, r => by
      rw [denseSpecAux]
      refine List.chain'_cons.mpr ⟨?_, denseSpecAux_chain vs v _⟩
      split_ifs <;> omega

theorem nonDenseSpecAux_chain {K : Type} [DecidableEq K] :
    ∀ (vs : List K) (prev : K) (r : Int) (g : Nat),
      List.Chain' (· ≤ ·) (r :: nonDenseSpecAux prev r g vs)
  | [], _, _, _ => List.chain'_singleton _
  | v :: vs, prev, r, g => by
      rw [nonDenseSpecAux]
      by_cases h : prev = v
      · rw [if_pos h]
        exact List.chain'_cons.mpr ⟨le_rfl, nonDenseSpecAux_chain vs v r (g + 1)⟩
      · rw [if_neg h]
        refine List.chain'_cons.mpr ⟨by omega, nonDenseSpecAux_chain vs v (r + (g : Int)) 1⟩

theorem denseSpecAux_getLastD {K : Type} [DecidableEq K] :
    ∀ (vs : List K) (prev : K) (r : Int),
      (r :: denseSpecAux prev r vs).getLastD 0 = r + (boundariesCount prev vs : Int)
  | [], prev, r => by simp [denseSpecAux, boundariesCount]
  | v :: vs, prev, r => by
      rw [denseSpecAux, boundariesCount]
      by_cases h : prev = v
      · rw [if_pos h, if_pos h,
          getLastD_cons_of_ne_nil _ _ (List.cons_ne_nil _ _),
          denseSpecAux_getLastD vs v r]
        push_cast
        ring
      · rw [if_neg h, if_neg h,
          getLastD_cons_of_ne_nil _ _ (List.cons_ne_nil _ _),
          denseSpecAux_getLastD vs v (r + 1)]
        push_cast
        ring

theorem nonDenseSpecAux_getLastD {K : Type} [DecidableEq K] :
    ∀ (vs : List K) (prev : K) (r : Int) (g : Nat),
      (r :: nonDenseSpecAux prev r g vs).getLastD 0 + (lastRunAux g prev vs : Int) =
        r + (g : Int) + (vs.length : Int)
  | [], prev, r, g => by
      simp [nonDenseSpecAux, lastRunAux]
  | v :: vs, prev, r, g => by
      rw [nonDenseSpecAux, lastRunAux]
      by_cases h : prev = v
      · rw [if_pos h, if_pos h,
          getLastD_cons_of_ne_nil _ _ (List.cons_ne_nil _ _)]
        have h2 := nonDenseSpecAux_getLastD vs v r (g + 1)
        rw [List.length_cons]
        push_cast at h2 ⊢
        omega
      · rw [if_neg h, if_neg h,
          getLastD_cons_of_ne_nil _ _ (List.cons_ne_nil _ _)]
        have h2 := nonDenseSpecAux_getLastD vs v (r + (g : Int)) 1
        rw [List.length_cons]
        push_cast at h2 ⊢
        omega

theorem denseRanksSpec_length {K : Type} [DecidableEq K] (l : List K) :
    (denseRanksSpec l).length = l.length := by
  cases l with
  | nil => rfl
  | cons v rest =>
      rw [denseRanksSpec, List.length_cons, List.length_cons, denseSpecAux_length]

theorem nonDenseRanksSpec_length {K : Type} [DecidableEq K] (l : List K) :
    (nonDenseRanksSpec l).length = l.length := by
  cases l with
  | nil => rfl
  | cons v rest =>
      rw [nonDenseRanksSpec, List.length_cons, List.length_cons, nonDenseSpecAux_length]

theorem boundariesCount_toFinset {K : Type} [LinearOrder K] [DecidableEq K] :
    ∀ (rest : List K) (v0 : K), List.Sorted (· ≤ ·) (v0 :: rest) →
      1 + boundariesCount v0 rest = (v0 :: rest).toFinset.card
  | [], v0, _ => by simp [boundariesCount]
  | v :: vs, v0, hs => by
      rw [List.sorted_cons] at hs
      rw [boundariesCount]
      by_cases h : v0 = v
      · rw [if_pos h, zero_add, boundariesCount_toFinset vs v hs.2]
        subst h
        have hdup : (v0 :: v0 :: vs).toFinset = (v0 :: vs).toFinset := by
          simp [List.toFinset_cons]
        rw [hdup]
      · rw [if_neg h]
        have hnot : v0 ∉ (v :: vs).toFinset := by
          rw [List.mem_toFinset]
          intro hmem
          rcases List.mem_cons.mp hmem with rfl | hmem2
          · exact h rfl
          · have h1 : v0 ≤ v := hs.1 v (List.mem_cons_self _ _)
            have h2 : v ≤ v0 := (List.sorted_cons.mp hs.2).1 v0 hmem2
            exact h (le_antisymm h1 h2)
        rw [List.toFinset_cons, Finset.card_insert_of_not_mem hnot]
        have hrec := boundariesCount_toFinset vs v hs.2
        omega

/-! ## Ranking engine: unfolding rank_and_sort past its validations -/

theorem rank_and_sort_row_number {K : Type} [LinearOrder K] [DecidableEq K]
    (keys : List K) (rank_by : List String) (ascending : List Bool)
    (hl : rank_by.length = ascending.length) :
    rank_and_sort keys rank_by ascending "row_number" =
      Except.ok ((get_row_number_rankings (sort_values keys).length).zip
        (sort_values keys)) := by
  rw [rank_and_sort, if_neg (by simp [method_options]), if_neg (by omega)]
  rfl

theorem rank_and_sort_dense {K : Type} [LinearOrder K] [DecidableEq K]
    (keys : List K) (rank_by : List String) (ascending : List Bool)
    (hl : rank_by.length = ascending.length) :
    rank_and_sort keys rank_by ascending "dense_rank" =
      (get_dense_rankings (sort_values keys)).map
        (fun rankings => rankings.zip (sort_values keys)) := by
  rw [rank_and_sort, if_neg (by simp [method_options]), if_neg (by omega)]
  rfl

theorem rank_and_sort_non_dense {K : Type} [LinearOrder K] [DecidableEq K]
    (keys : List K) (rank_by : List String) (ascending : List Bool)
    (hl : rank_by.length = ascending.length) :
    rank_and_sort keys rank_by ascending "non_dense_rank" =
      (get_non_dense_rankings (sort_values keys)).map
        (fun rankings => rankings.zip (sort_values keys)) := by
  rw [rank_and_sort, if_neg (by simp [method_options]), if_neg (by omega)]
  rfl

theorem get_dense_rankings_spec {K : Type} [DecidableEq K] (v0 : K) (rest : List K) :
    get_dense_rankings (v0 :: rest) = Except.ok (denseRanksSpec (v0 :: rest)) := by
  rw [get_dense_rankings, denseLoop_spec, denseRanksSpec]
  simp

theorem get_non_dense_rankings_spec {K : Type} [DecidableEq K] (v0 : K) (rest : List K) :
    get_non_dense_rankings (v0 :: rest) = Except.ok (nonDenseRanksSpec (v0 :: rest)) := by
  rw [get_non_dense_rankings,
    nonDenseLoop_spec rest [1] v0 1 (by simp) (List.sorted_singleton _) (by simp) le_rfl,
    nonDenseRanksSpec]
  simp

/-- C2: on a non-empty key sequence already sorted by the ranking keys,
`rank_and_sort` keeps the rows and produces non-decreasing ranks for all
three methods; `row_number` gives exactly the permutation `1..N` with no
repeats; `dense_rank` follows the dense recurrence, starts at 1 and peaks at
the number of distinct key tuples; `non_dense_rank` follows the SQL RANK
recurrence, starts at 1 and peaks at `N - size_of_last_tie_group + 1`. -/
theorem rank_and_sort_ranking_correct {K : Type} [LinearOrder K] [DecidableEq K]
    (keys : List K) (rank_by : List String) (ascending : List Bool)
    (hne : keys ≠ []) (hsorted : List.Sorted (· ≤ ·) keys)
    (hlen : rank_by.length = ascending.length) :
    RankingConclusion keys rank_by ascending := by
  have hsv : sort_values keys = keys := List.Sorted.insertionSort_eq hsorted
  obtain ⟨v0, rest, rfl⟩ : ∃ v0 rest, keys = v0 :: rest := by
    cases keys with
    | nil => exact absurd rfl hne
    | cons a t => exact ⟨a, t, rfl⟩
  refine ⟨?_, ?_, ?_⟩
  · refine ⟨(get_row_number_rankings (v0 :: rest).length).zip (v0 :: rest),
      ?_, ?_, ?_, ?_, ?_⟩
    · rw [rank_and_sort_row_number _ _ _ hlen, hsv]
    · exact List.map_snd_zip _ _ (by simp [get_row_number_rankings])
    · rw [List.map_fst_zip _ _ (by simp [get_row_number_rankings])]
      rfl
    · rw [List.map_fst_zip _ _ (by simp [get_row_number_rankings]),
        get_row_number_rankings]
      refine List.Nodup.map ?_ (List.nodup_range _)
      intro a b hab
      dsimp only at hab
      omega
    · rw [List.map_fst_zip _ _ (by simp [get_row_number_rankings]),
        get_row_number_rankings]
      show List.Pairwise _ _
      refine List.pairwise_map.mpr ((List.pairwise_lt_range _).imp ?_)
      intro a b h
      dsimp only
      omega
  · have hfst : ((denseRanksSpec (v0 :: rest)).zip (v0 :: rest)).map Prod.fst =
        denseRanksSpec (v0 :: rest) :=
      List.map_fst_zip _ _ (by rw [denseRanksSpec_length])
    have hchain : List.Sorted (· ≤ ·) (denseRanksSpec (v0 :: rest)) := by
      rw [denseRanksSpec]
      exact List.chain'_iff_pairwise.mp (denseSpecAux_chain rest v0 1)
    have hlast : (denseRanksSpec (v0 :: rest)).getLastD 0 =
        (((v0 :: rest).toFinset.card : Nat) : Int) := by
      rw [denseRanksSpec, denseSpecAux_getLastD,
        ← boundariesCount_toFinset rest v0 hsorted]
      push_cast
      ring
    refine ⟨(denseRanksSpec (v0 :: rest)).zip (v0 :: rest), ?_, ?_, ?_, ?_, ?_, ?_, ?_⟩
    · rw [rank_and_sort_dense _ _ _ hlen, hsv, get_dense_rankings_spec]
      rfl
    · exact List.map_snd_zip _ _ (by rw [denseRanksSpec_length])
    · exact hfst
    · rw [hfst]
      exact hchain
    · rw [hfst, denseRanksSpec]
      rfl
    · rw [hfst, hlast]
    · rw [hfst]
      intro r hr
      have hle := sorted_le_getLastD hchain hr
      rw [hlast] at hle
      exact hle
  · have hfst : ((nonDenseRanksSpec (v0 :: rest)).zip (v0 :: rest)).map Prod.fst =
        nonDenseRanksSpec (v0 :: rest) :=
      List.map_fst_zip _ _ (by rw [nonDenseRanksSpec_length])
    have hchain : List.Sorted (· ≤ ·) (nonDenseRanksSpec (v0 :: rest)) := by
      rw [nonDenseRanksSpec]
      exact List.chain'_iff_pairwise.mp (nonDenseSpecAux_chain rest v0 1 1)
    have hlast : (nonDenseRanksSpec (v0 :: rest)).getLastD 0 =
        (((v0 :: rest).length : Nat) : Int) - (lastRunLength (v0 :: rest) : Int) + 1 := by
      have h2 := nonDenseSpecAux_getLastD rest v0 1 1
      rw [nonDenseRanksSpec, lastRunLength, List.length_cons]
      push_cast at h2 ⊢
      omega
    refine ⟨(nonDenseRanksSpec (v0 :: rest)).zip (v0 :: rest), ?_, ?_, ?_, ?_, ?_, ?_, ?_⟩
    · rw [rank_and_sort_non_dense _ _ _ hlen, hsv, get_non_dense_rankings_spec]
      rfl
    · exact List.map_snd_zip _ _ (by rw [nonDenseRanksSpec_length])
    · exact hfst
    · rw [hfst]
      exact hchain
    · rw [hfst, nonDenseRanksSpec]
      rfl
    · rw [hfst, hlast]
    · rw [hfst]
      intro r hr
      have hle := sorted_le_getLastD hchain hr
      rw [hlast] at hle
      exact hle

/-- Witness for C2 at the specification's example key sequence
`[a,a,a,a,b,b,c,d,d,e,e,f,g,g]` (encoded as integers). -/
theorem rank_and_sort_ranking_correct_witness :
    ([1, 1, 1, 1, 2, 2, 3, 4, 4, 5, 5, 6, 7, 7] : List Int) ≠ [] ∧
    List.Sorted (· ≤ ·) ([1, 1, 1, 1, 2, 2, 3, 4, 4, 5, 5, 6, 7, 7] : List Int) ∧
    RankingConclusion ([1, 1, 1, 1, 2, 2, 3, 4, 4, 5, 5, 6, 7, 7] : List Int)
      ["column"] [true] :=
  ⟨by decide, by decide,
   rank_and_sort_ranking_correct [1, 1, 1, 1, 2, 2, 3, 4, 4, 5, 5, 6, 7, 7]
     ["column"] [true] (by decide) (by decide) (by decide)⟩

/-- C6: `rank_and_sort` fails with the Invalid-Option message (naming the
received value and the allowed set) whenever `method` is outside
`{row_number, dense_rank, non_dense_rank}`, and — for a valid method — fails
with the Domain message reporting both lengths whenever `rank_by` and
`ascending` have different lengths; in both cases the error is the whole
result, so it is raised before any ranking output is produced. -/
theorem rank_and_sort_validation {K : Type} [LinearOrder K] [DecidableEq K] :
    (∀ (keys : List K) (rank_by : List String) (ascending : List Bool) (method : String),
      method ∉ method_options →
      rank_and_sort keys rank_by ascending method =
        Except.error (methodErrorMessage method)) ∧
    (∀ (keys : List K) (rank_by : List String) (ascending : List Bool) (method : String),
      method ∈ method_options → rank_by.length ≠ ascending.length →
      rank_and_sort keys rank_by ascending method =
        Except.error (lengthErrorMessage rank_by.length ascending.length)) ∧
    (∀ method : String, methodErrorMessage method =
      "Expected `method` to be in ['row_number', 'dense_rank', 'non_dense_rank']," ++
        " but got '" ++ method ++ "'") ∧
    lengthErrorMessage 2 1 =
      "Expected `rank_by` and `ascending` to be of same length," ++
        " but got lengths 2 and 1 respectively." := by
  refine ⟨?_, ?_, ?_, ?_⟩
  · intro keys rank_by ascending method hm
    rw [rank_and_sort, if_pos hm]
  · intro keys rank_by ascending method hm hlen
    rw [rank_and_sort, if_neg (fun hc => hc hm), if_pos hlen]
  · intro method
    rw [methodErrorMessage, String.append_assoc]
    rfl
  · rfl

/-- Witness for C6: the invalid method "bogus" and mismatched lengths 2/1. -/
theorem rank_and_sort_validation_witness :
    rank_and_sort ([1, 2] : List Int) ["a", "b"] [true] "bogus" =
        Except.error (methodErrorMessage "bogus") ∧
    rank_and_sort ([1, 2] : List Int) ["a", "b"] [true] "dense_rank" =
        Except.error (lengthErrorMessage 2 1) :=
  ⟨(@rank_and_sort_validation Int _ _).1 [1, 2] ["a", "b"] [true] "bogus" (by decide),
   (@rank_and_sort_validation Int _ _).2.1 [1, 2] ["a", "b"] [true] "dense_rank"
     (by decide) (by decide)⟩

/-- C10: on a zero-row input (with valid arguments), `rank_and_sort` with
`row_number` returns an empty result, while `dense_rank` and
`non_dense_rank` fail with the index-out-of-range error — the helpers read
the first sorted key tuple unconditionally — before producing any output. -/
theorem rank_and_sort_empty_input {K : Type} [LinearOrder K] [DecidableEq K]
    (rank_by : List String) (ascending : List Bool)
    (hlen : rank_by.length = ascending.length) :
    rank_and_sort ([] : List K) rank_by ascending "row_number" = Except.ok [] ∧
    rank_and_sort ([] : List K) rank_by ascending "dense_rank" =
      Except.error "IndexError: list index out of range" ∧
    rank_and_sort ([] : List K) rank_by ascending "non_dense_rank" =
      Except.error "IndexError: list index out of range" := by
  refine ⟨?_, ?_, ?_⟩
  · rw [rank_and_sort_row_number _ _ _ hlen]
    rfl
  · rw [rank_and_sort_dense _ _ _ hlen]
    rfl
  · rw [rank_and_sort_non_dense _ _ _ hlen]
    rfl

/-- Witness for C10 with one ranking key. -/
theorem rank_and_sort_empty_input_witness :
    rank_and_sort ([] : List Int) ["a"] [true] "row_number" = Except.ok [] ∧
    rank_and_sort ([] : List Int) ["a"] [true] "dense_rank" =
      Except.error "IndexError: list index out of range" ∧
    rank_and_sort ([] : List Int) ["a"] [true] "non_dense_rank" =
      Except.error "IndexError: list index out of range" :=
  @rank_and_sort_empty_input Int _ _ ["a"] [true] (by decide)
